/-
  Verification of the OpenAI <-> Gemini chat-format converter of this
  repository (src/packages/core/src/utils/openaiFormatConverter.ts).

  The TypeScript class OpenAIFormatConverter is shallowly embedded below:
  each static method becomes a Lean function over explicit data types.
  JavaScript `undefined`/`null` optionality is modelled with Option,
  exceptions with Except, and JavaScript truthiness tests are spelled out
  where the source relies on them (empty strings and undefined are falsy,
  arrays and objects are always truthy).  JSON.parse / JSON.stringify,
  which the source calls on tool-call argument strings, are modelled by a
  small JSON value type with a parser and a printer.
-/
import Mathlib

set_option maxRecDepth 40000

/-- JSON values as handled by the JavaScript runtime functions JSON.parse
and JSON.stringify, which the converter uses for tool-call arguments and
tool responses.  Number literals keep their source lexeme. -/
inductive Json where
  | null : Json
  | bool (b : Bool) : Json
  | num (lexeme : String) : Json
  | str (s : String) : Json
  | arr (elems : List Json) : Json
  | obj (members : List (String × Json)) : Json

/-- Whitespace accepted between JSON tokens. -/
def isJsonWs (c : Char) : Bool :=
  c = ' ' || c = '\t' || c = '\n' || c = '\r'

/-- Skip JSON whitespace. -/
def skipWs : List Char → List Char
  | [] => []
  | c :: cs => if isJsonWs c then skipWs cs else c :: cs

/-- Hexadecimal digit test, for \uXXXX escapes. -/
def isHexDigitChar (c : Char) : Bool :=
  c.isDigit || decide ('a' ≤ c ∧ c ≤ 'f') || decide ('A' ≤ c ∧ c ≤ 'F')

/-- Value of a hexadecimal digit. -/
def hexVal (c : Char) : Nat :=
  if c.isDigit then c.toNat - 48
  else if decide ('a' ≤ c ∧ c ≤ 'f') then c.toNat - 87
  else if decide ('A' ≤ c ∧ c ≤ 'F') then c.toNat - 55
  else 0

/-- Parse the body of a JSON string after the opening quote, handling the
escape sequences JSON.parse accepts and rejecting raw control characters.
Returns the decoded string and the input after the closing quote. -/
def parseStringBody : Nat → List Char → String → Option (String × List Char)
  | 0, _, _ => none
  | _ + 1, [], _ => none
  | fuel + 1, c :: cs, acc =>
    if c = '"' then some (acc, cs)
    else if c = '\\' then
      match cs with
      | [] => none
      | e :: cs1 =>
        if e = '"' then parseStringBody fuel cs1 (acc.push '"')
        else if e = '\\' then parseStringBody fuel cs1 (acc.push '\\')
        else if e = '/' then parseStringBody fuel cs1 (acc.push '/')
        else if e = 'b' then parseStringBody fuel cs1 (acc.push (Char.ofNat 8))
        else if e = 'f' then parseStringBody fuel cs1 (acc.push (Char.ofNat 12))
        else if e = 'n' then parseStringBody fuel cs1 (acc.push '\n')
        else if e = 'r' then parseStringBody fuel cs1 (acc.push '\r')
        else if e = 't' then parseStringBody fuel cs1 (acc.push '\t')
        else if e = 'u' then
          match cs1 with
          | h1 :: h2 :: h3 :: h4 :: cs2 =>
            if isHexDigitChar h1 && isHexDigitChar h2 &&
               isHexDigitChar h3 && isHexDigitChar h4 then
              parseStringBody fuel cs2
                (acc.push (Char.ofNat
                  (((hexVal h1 * 16 + hexVal h2) * 16 + hexVal h3) * 16 + hexVal h4)))
            else none
          | _ => none
        else none
    else if c.toNat < 32 then none
    else parseStringBody fuel cs (acc.push c)

/-- Take a maximal run of decimal digits. -/
def takeDigits : List Char → String × List Char
  | [] => ("", [])
  | c :: cs =>
    if c.isDigit then
      let r := takeDigits cs
      (String.singleton c ++ r.1, r.2)
    else ("", c :: cs)

/-- Parse an optional JSON fraction part. -/
def parseFracPart : List Char → Option (String × List Char)
  | c :: r =>
    if c = '.' then
      let d := takeDigits r
      if d.1 = "" then none else some ("." ++ d.1, d.2)
    else some ("", c :: r)
  | [] => some ("", [])

/-- Parse an optional JSON exponent part. -/
def parseExpPart : List Char → Option (String × List Char)
  | c :: r =>
    if c = 'e' || c = 'E' then
      let sr :=
        match r with
        | s :: r1 => if s = '+' || s = '-' then (String.singleton s, r1) else ("", r)
        | [] => ("", ([] : List Char))
      let d := takeDigits sr.2
      if d.1 = "" then none else some (String.singleton c ++ sr.1 ++ d.1, d.2)
    else some ("", c :: r)
  | [] => some ("", [])

/-- Parse a JSON number lexeme (with the no-leading-zero rule). -/
def parseNumberLexeme (cs : List Char) : Option (String × List Char) :=
  let sr := match cs with
    | c :: r => if c = '-' then ("-", r) else ("", cs)
    | [] => ("", ([] : List Char))
  match sr.2 with
  | [] => none
  | c :: _ =>
    if c.isDigit then
      let ip := takeDigits sr.2
      if ip.1.length > 1 ∧ ip.1.front = '0' then none
      else
        match parseFracPart ip.2 with
        | none => none
        | some fp =>
          match parseExpPart fp.2 with
          | none => none
          | some ep => some (sr.1 ++ ip.1 ++ fp.1 ++ ep.1, ep.2)
    else none

mutual

/-- Parse one JSON value, fuel-bounded recursive descent. -/
def parseValue : Nat → List Char → Option (Json × List Char)
  | 0, _ => none
  | fuel + 1, cs =>
    match skipWs cs with
    | [] => none
    | c :: rest =>
      if c = Char.ofNat 123 then
        match skipWs rest with
        | d :: r => if d = Char.ofNat 125 then some (Json.obj [], r)
                    else parseMembers fuel (d :: r) []
        | [] => none
      else if c = '[' then
        match skipWs rest with
        | d :: r => if d = ']' then some (Json.arr [], r)
                    else parseElements fuel (d :: r) []
        | [] => none
      else if c = '"' then
        match parseStringBody (rest.length + 1) rest "" with
        | some sr => some (Json.str sr.1, sr.2)
        | none => none
      else if c = 't' then
        match rest with
        | 'r' :: 'u' :: 'e' :: r => some (Json.bool true, r)
        | _ => none
      else if c = 'f' then
        match rest with
        | 'a' :: 'l' :: 's' :: 'e' :: r => some (Json.bool false, r)
        | _ => none
      else if c = 'n' then
        match rest with
        | 'u' :: 'l' :: 'l' :: r => some (Json.null, r)
        | _ => none
      else
        match parseNumberLexeme (c :: rest) with
        | some sr => some (Json.num sr.1, sr.2)
        | none => none

/-- Parse array elements after the opening bracket (nonempty case). -/
def parseElements : Nat → List Char → List Json → Option (Json × List Char)
  | 0, _, _ => none
  | fuel + 1, cs, acc =>
    match parseValue fuel cs with
    | none => none
    | some vr =>
      match skipWs vr.2 with
      | c :: r =>
        if c = ',' then parseElements fuel r (acc ++ [vr.1])
        else if c = ']' then some (Json.arr (acc ++ [vr.1]), r)
        else none
      | [] => none

/-- Parse object members after the opening brace (nonempty case). -/
def parseMembers : Nat → List Char → List (String × Json) → Option (Json × List Char)
  | 0, _, _ => none
  | fuel + 1, cs, acc =>
    match skipWs cs with
    | c :: r0 =>
      if c = '"' then
        match parseStringBody (r0.length + 1) r0 "" with
        | none => none
        | some kr =>
          match skipWs kr.2 with
          | d :: r2 =>
            if d = ':' then
              match parseValue fuel r2 with
              | none => none
              | some vr =>
                match skipWs vr.2 with
                | e :: r4 =>
                  if e = ',' then parseMembers fuel r4 (acc ++ [(kr.1, vr.1)])
                  else if e = Char.ofNat 125 then
                    some (Json.obj (acc ++ [(kr.1, vr.1)]), r4)
                  else none
                | [] => none
            else none
          | [] => none
      else none
    | [] => none

end

/-- Model of JavaScript JSON.parse: parses the whole string (modulo
surrounding whitespace) or fails. -/
def parseJsonTop (s : String) : Option Json :=
  match parseValue (s.toList.length * 2 + 4) s.toList with
  | some vr => if (skipWs vr.2).isEmpty then some vr.1 else none
  | none => none

/-- Escape one character as JSON.stringify does inside string literals. -/
def escapeJsonChar (c : Char) : String :=
  if c = '"' then "\\\""
  else if c = '\\' then "\\\\"
  else if c = '\n' then "\\n"
  else if c = '\r' then "\\r"
  else if c = '\t' then "\\t"
  else if c = Char.ofNat 8 then "\\b"
  else if c = Char.ofNat 12 then "\\f"
  else if c.toNat < 32 then
    "\\u00" ++ String.singleton (Char.ofNat (if c.toNat / 16 < 10 then c.toNat / 16 + 48 else c.toNat / 16 + 87))
            ++ String.singleton (Char.ofNat (if c.toNat % 16 < 10 then c.toNat % 16 + 48 else c.toNat % 16 + 87))
  else String.singleton c

/-- JSON string literal printer. -/
def stringifyStringLit (s : String) : String :=
  "\"" ++ String.join (s.toList.map escapeJsonChar) ++ "\""

mutual

/-- Model of JavaScript JSON.stringify (compact form, as called with a
single argument by the converter). -/
def jsonStringify : Json → String
  | Json.null => "null"
  | Json.bool true => "true"
  | Json.bool false => "false"
  | Json.num s => s
  | Json.str s => stringifyStringLit s
  | Json.arr vs => "[" ++ stringifyElems vs ++ "]"
  | Json.obj ms => "\x7b" ++ stringifyMembers ms ++ "\x7d"

/-- Comma-joined array elements. -/
def stringifyElems : List Json → String
  | [] => ""
  | [v] => jsonStringify v
  | v :: vs => jsonStringify v ++ "," ++ stringifyElems vs

/-- Comma-joined object members. -/
def stringifyMembers : List (String × Json) → String
  | [] => ""
  | [kv] => stringifyStringLit kv.1 ++ ":" ++ jsonStringify kv.2
  | kv :: ms => stringifyStringLit kv.1 ++ ":" ++ jsonStringify kv.2 ++ "," ++ stringifyMembers ms

end

example : parseJsonTop "\x7b\x7d" = some (Json.obj []) := rfl
example : parseJsonTop "not json" = none := rfl
example : jsonStringify (Json.obj []) = "\x7b\x7d" := rfl

/-! ## Data model

Shapes of the two wire formats, as declared at the top of
openaiFormatConverter.ts and in the SDK types the converter reads. -/

/-- Message roles of the flat (OpenAI-style) schema. -/
inductive Role where
  | system : Role
  | user : Role
  | assistant : Role
  | tool : Role
deriving DecidableEq

/-- The function payload of an OpenAI tool call. -/
structure ToolCallFunction where
  name : String
  arguments : String
deriving DecidableEq

/-- OpenAIToolCall: id, type ("function") and function payload. -/
structure OpenAIToolCall where
  id : String
  type : String
  function : ToolCallFunction
deriving DecidableEq

/-- OpenAIMessage: role, nullable content, optional tool_calls and
optional tool_call_id (TypeScript `?:` fields become Option). -/
structure OpenAIMessage where
  role : Role
  content : Option String
  tool_calls : Option (List OpenAIToolCall) := none
  tool_call_id : Option String := none
deriving DecidableEq

/-- OpenAIUsage token counts. -/
structure OpenAIUsage where
  prompt_tokens : Nat
  completion_tokens : Nat
  total_tokens : Nat
deriving DecidableEq

/-- The Gemini FinishReason enum, restricted to the four values the
mapping produces. -/
inductive FinishReason where
  | STOP : FinishReason
  | MAX_TOKENS : FinishReason
  | SAFETY : FinishReason
  | OTHER : FinishReason
deriving DecidableEq

/-- Gemini Part: a tagged union of text, functionCall and
functionResponse.  The genai SDK marks functionCall.args,
functionResponse.name and functionResponse.response optional; the
converter also reads functionCall.name, modelled here as a plain String
since it forwards it unchanged. -/
inductive GPart where
  | text (text : String) : GPart
  | functionCall (name : String) (args : Option Json) : GPart
  | functionResponse (name : Option String) (response : Option Json) : GPart

/-- A Gemini Content (one turn): role string plus optional parts. -/
structure GContent where
  role : String
  parts : Option (List GPart)

/-- Gemini generation config fields the converter copies.  The numeric
fields are only moved, never computed with; Rat stands in for the
JavaScript numbers. -/
structure GenConfig where
  temperature : Option Rat := none
  topP : Option Rat := none
  maxOutputTokens : Option Nat := none

/-- GenerateContentParameters: the request the outbound translator reads.
The source normalizes a single content to a one-element array; the model
starts from the normalized list. -/
structure GenerateContentParameters where
  contents : List GContent
  config : Option GenConfig := none

/-- OpenAIRequestFormat, the outbound translator's result. -/
structure OpenAIRequestFormat where
  model : String
  messages : List OpenAIMessage
  temperature : Option Rat := none
  max_tokens : Option Nat := none
  top_p : Option Rat := none

/-- The message inside one choice of a full ChatCompletion response. -/
structure CompletionMessage where
  content : Option String
  tool_calls : Option (List OpenAIToolCall) := none

/-- One choice of a full ChatCompletion response. -/
structure CompletionChoice where
  message : CompletionMessage
  finish_reason : String

/-- The full ChatCompletion response fields the converter reads. -/
structure ChatCompletion where
  choices : List CompletionChoice
  usage : Option OpenAIUsage := none

/-- The (fully optional) function payload of a streamed tool-call delta. -/
structure DeltaToolCallFunction where
  name : Option String := none
  arguments : Option String := none

/-- One streamed tool-call delta. -/
structure DeltaToolCall where
  type : Option String := none
  function : Option DeltaToolCallFunction := none

/-- The delta of one streamed chunk choice. -/
structure ChunkDelta where
  content : Option String := none
  tool_calls : Option (List DeltaToolCall) := none

/-- One choice of a streamed chunk. -/
structure ChunkChoice where
  delta : ChunkDelta
  finish_reason : Option String := none

/-- The ChatCompletionChunk fields the converter reads. -/
structure ChatCompletionChunk where
  choices : List ChunkChoice

/-- Gemini candidate content of the converted responses. -/
structure GContentOut where
  parts : List GPart
  role : String

/-- One candidate of a converted response. -/
structure GCandidate where
  content : GContentOut
  finishReason : Option FinishReason

/-- usageMetadata of a converted response. -/
structure GUsageMetadata where
  promptTokenCount : Nat
  candidatesTokenCount : Nat
  totalTokenCount : Nat

/-- GenerateContentResponse as built by the inbound translators. -/
structure GenerateContentResponse where
  candidates : List GCandidate
  usageMetadata : Option GUsageMetadata := none

/-- Errors the inbound translators can raise: the generic
`Error('No choices in OpenAI response')` of convertToGeminiFormat, and the
SyntaxError JSON.parse throws on malformed tool-call arguments (the
offending string is carried). -/
inductive ConvError where
  | emptyResponse : ConvError
  | malformedArguments (arguments : String) : ConvError
deriving DecidableEq

/-! ## Finish-reason mapping and inbound translators -/

/-- mapFinishReason: the switch at openaiFormatConverter.ts:296-309. -/
def mapFinishReason (openAIReason : String) : FinishReason :=
  if openAIReason = "stop" then FinishReason.STOP
  else if openAIReason = "length" then FinishReason.MAX_TOKENS
  else if openAIReason = "tool_calls" then FinishReason.STOP
  else if openAIReason = "content_filter" then FinishReason.SAFETY
  else FinishReason.OTHER

/-- The tool-call loop of convertToGeminiFormat (lines 207-218): entries
of type "function" become functionCall parts with args parsed by
JSON.parse(arguments || "\x7b\x7d"); a parse failure aborts the whole
translation (JSON.parse throws). -/
def buildFunctionCallParts : List OpenAIToolCall → Except ConvError (List GPart)
  | [] => Except.ok []
  | tc :: rest =>
    if tc.type = "function" then
      match parseJsonTop (if tc.function.arguments = "" then "\x7b\x7d" else tc.function.arguments) with
      | some j =>
        (buildFunctionCallParts rest).map (fun ps => GPart.functionCall tc.function.name (some j) :: ps)
      | none => Except.error (ConvError.malformedArguments tc.function.arguments)
    else buildFunctionCallParts rest

/-- convertToGeminiFormat (lines 193-240).  Throws on zero choices,
otherwise translates choice 0 only: a text part when message.content is
truthy, then the function tool calls, one candidate with the mapped
finish reason, and usageMetadata only when usage is present. -/
def convertToGeminiFormat (completion : ChatCompletion) : Except ConvError GenerateContentResponse :=
  match completion.choices with
  | [] => Except.error ConvError.emptyResponse
  | choice :: _ =>
    let textParts : List GPart :=
      match choice.message.content with
      | some s => if s = "" then [] else [GPart.text s]
      | none => []
    match buildFunctionCallParts (choice.message.tool_calls.getD []) with
    | Except.error e => Except.error e
    | Except.ok callParts =>
      Except.ok
        { candidates := [{ content := { parts := textParts ++ callParts, role := "model" },
                           finishReason := some (mapFinishReason choice.finish_reason) }],
          usageMetadata := completion.usage.map (fun u =>
            { promptTokenCount := u.prompt_tokens,
              candidatesTokenCount := u.completion_tokens,
              totalTokenCount := u.total_tokens }) }

/-- The delta tool-call loop of convertStreamChunkToGeminiFormat (lines
261-274): a delta is used only when its type is "function" and its
function payload is present; name defaults to "", arguments parse only
when truthy (else the args are the empty object). -/
def buildDeltaCallParts : List DeltaToolCall → Except ConvError (List GPart)
  | [] => Except.ok []
  | tc :: rest =>
    match tc.type, tc.function with
    | some "function", some fn =>
      match fn.arguments with
      | some a =>
        if a = "" then
          (buildDeltaCallParts rest).map (fun ps => GPart.functionCall (fn.name.getD "") (some (Json.obj [])) :: ps)
        else
          match parseJsonTop a with
          | some j =>
            (buildDeltaCallParts rest).map (fun ps => GPart.functionCall (fn.name.getD "") (some j) :: ps)
          | none => Except.error (ConvError.malformedArguments a)
      | none =>
        (buildDeltaCallParts rest).map (fun ps => GPart.functionCall (fn.name.getD "") (some (Json.obj [])) :: ps)
    | _, _ => buildDeltaCallParts rest

/-- convertStreamChunkToGeminiFormat (lines 245-291).  Zero choices yield
an empty candidate list; otherwise choice 0's delta is translated, and
finishReason is set only when chunk finish_reason is truthy. -/
def convertStreamChunkToGeminiFormat (chunk : ChatCompletionChunk) : Except ConvError GenerateContentResponse :=
  match chunk.choices with
  | [] => Except.ok { candidates := [], usageMetadata := none }
  | choice :: _ =>
    let textParts : List GPart :=
      match choice.delta.content with
      | some s => if s = "" then [] else [GPart.text s]
      | none => []
    match buildDeltaCallParts (choice.delta.tool_calls.getD []) with
    | Except.error e => Except.error e
    | Except.ok callParts =>
      let finishReason : Option FinishReason :=
        match choice.finish_reason with
        | some fr => if fr = "" then none else some (mapFinishReason fr)
        | none => none
      Except.ok
        { candidates := [{ content := { parts := textParts ++ callParts, role := "model" },
                           finishReason := finishReason }],
          usageMetadata := none }

/-! ## Outbound request translator -/

/-- Newline join, the semantics of JavaScript Array.prototype.join with
separator "\n" (used both on text parts and on merged contents). -/
def joinNl : List String → String
  | [] => ""
  | [s] => s
  | s :: rest => s ++ "\n" ++ joinNl rest

/-- One turn of convertGeminiParametersToOpenAI (lines 113-169).  `clock`
models Date.now (the value of its k-th call overall), `ctr` is how many
Date.now calls happened in earlier turns.  Only user/model roles are
translated; text parts are newline-joined into one message when nonempty;
all function calls become one assistant message with content null; each
function response becomes a separate tool message keyed by function
name. -/
def convertTurnMessages (clock : Nat → Nat) (ctr : Nat) (content : GContent) :
    List OpenAIMessage × Nat :=
  if content.role = "user" ∨ content.role = "model" then
    let role : Role := if content.role = "model" then Role.assistant else Role.user
    let parts := content.parts.getD []
    let textJoined := joinNl (parts.filterMap fun p =>
      match p with
      | GPart.text s => some s
      | _ => none)
    let textMsgs : List OpenAIMessage :=
      if textJoined = "" then [] else [{ role := role, content := some textJoined }]
    let functionCalls := parts.filterMap fun p =>
      match p with
      | GPart.functionCall n a => some (n, a)
      | _ => none
    let fcState : List OpenAIMessage × Nat :=
      if functionCalls.length > 0 then
        let tool_calls := functionCalls.enum.map fun ia =>
          { id := "call_" ++ toString (clock (ctr + ia.1)) ++ "_" ++ toString ia.1,
            type := "function",
            function := { name := ia.2.1,
                          arguments := jsonStringify (ia.2.2.getD (Json.obj [])) } : OpenAIToolCall }
        ([{ role := Role.assistant, content := none, tool_calls := some tool_calls }],
         ctr + functionCalls.length)
      else ([], ctr)
    let frMsgs : List OpenAIMessage := parts.filterMap fun p =>
      match p with
      | GPart.functionResponse n r =>
        some { role := Role.tool,
               content := some (jsonStringify (r.getD (Json.obj []))),
               tool_call_id := some ("call_" ++
                 (match n with
                  | some s => if s = "" then "unknown" else s
                  | none => "unknown")) }
      | _ => none
    (textMsgs ++ fcState.1 ++ frMsgs, fcState.2)
  else ([], ctr)

/-- convertGeminiParametersToOpenAI (lines 105-188): translate the turns
in order and copy the config fields that are present. -/
def convertGeminiParametersToOpenAI (clock : Nat → Nat)
    (request : GenerateContentParameters) (model : String) : OpenAIRequestFormat :=
  let res := request.contents.foldl
    (fun (acc : List OpenAIMessage × Nat) c =>
      let step := convertTurnMessages clock acc.2 c
      (acc.1 ++ step.1, step.2))
    ([], 0)
  { model := model,
    messages := res.1,
    temperature := request.config.bind (fun cf => cf.temperature),
    top_p := request.config.bind (fun cf => cf.topP),
    max_tokens := request.config.bind (fun cf => cf.maxOutputTokens) }

/-! ## History sanitizer: orphaned tool calls -/

/-- First pass of cleanOrphanedToolCalls (lines 318-325): every tool-call
id carried by an assistant message.  The JavaScript Set is modelled by a
list, of which only membership is used. -/
def toolCallIdsOf (messages : List OpenAIMessage) : List String :=
  messages.flatMap fun m =>
    if m.role = Role.assistant then (m.tool_calls.getD []).map (fun tc => tc.id) else []

/-- The inner `messages.some(...)` test of the second pass (lines
336-339): does some tool message of the original list answer this id? -/
def hasToolResponse (messages : List OpenAIMessage) (i : String) : Bool :=
  messages.any fun m => decide (m.role = Role.tool ∧ m.tool_call_id = some i)

/-- Second pass of cleanOrphanedToolCalls, per message (lines 328-349).
A tool message survives only if its tool_call_id is truthy (nonempty) and
collected; an assistant message with tool_calls keeps only answered
entries, the field becoming absent when none survive; everything else
passes through. -/
def cleanMessage (messages : List OpenAIMessage) (m : OpenAIMessage) : Option OpenAIMessage :=
  match m.role with
  | Role.tool =>
    match m.tool_call_id with
    | some tid => if tid ≠ "" ∧ tid ∈ toolCallIdsOf messages then some m else none
    | none => none
  | Role.assistant =>
    match m.tool_calls with
    | some tcs =>
      let valid := tcs.filter fun tc => hasToolResponse messages tc.id
      some { m with tool_calls := if valid.isEmpty then none else some valid }
    | none => some m
  | _ => some m

/-- cleanOrphanedToolCalls (lines 314-352). -/
def cleanOrphanedToolCalls (messages : List OpenAIMessage) : List OpenAIMessage :=
  messages.filterMap (cleanMessage messages)

/-! ## History sanitizer: merging consecutive assistant messages -/

/-- JavaScript `[a, b].filter(Boolean)` on nullable strings: null and ""
are dropped. -/
def filterBooleanStr (l : List (Option String)) : List String :=
  (l.filterMap id).filter fun s => decide (s ≠ "")

/-- The merge step of mergeConsecutiveAssistantMessages (lines 363-380):
contents are filtered for truthiness and newline-joined (the join
becoming null when empty), tool_calls arrays are concatenated (absent
counting as empty), the spread keeps the remaining fields of the earlier
message. -/
def mergeTwoAssistant (cur m : OpenAIMessage) : OpenAIMessage :=
  let mergedContent := joinNl (filterBooleanStr [cur.content, m.content])
  { cur with
    content := if mergedContent = "" then none else some mergedContent,
    role := Role.assistant,
    tool_calls := some (cur.tool_calls.getD [] ++ m.tool_calls.getD []) }

/-- The loop of mergeConsecutiveAssistantMessages, with the pending
assistant message as explicit state. -/
def mergeAux : Option OpenAIMessage → List OpenAIMessage → List OpenAIMessage
  | cur, [] =>
    match cur with
    | some c => [c]
    | none => []
  | cur, m :: rest =>
    if m.role = Role.assistant then
      match cur with
      | some c => mergeAux (some (mergeTwoAssistant c m)) rest
      | none => mergeAux (some m) rest
    else
      match cur with
      | some c => c :: m :: mergeAux none rest
      | none => m :: mergeAux none rest

/-- mergeConsecutiveAssistantMessages (lines 357-400). -/
def mergeConsecutiveAssistantMessages (messages : List OpenAIMessage) : List OpenAIMessage :=
  mergeAux none messages

/-! ## Invariants of the orphaned-tool-call sanitizer -/

/-- The flat-side pairing invariant over one message list: every tool
message is answered by a tool_calls entry of some assistant message of
the list, and every assistant tool_calls entry is answered by some tool
message of the list. -/
def toolMatchedInv (msgs : List OpenAIMessage) : Prop :=
  (∀ T ∈ msgs, T.role = Role.tool →
    ∃ A ∈ msgs, A.role = Role.assistant ∧
      ∃ tc ∈ A.tool_calls.getD [], some tc.id = T.tool_call_id) ∧
  (∀ A ∈ msgs, A.role = Role.assistant →
    ∀ tc ∈ A.tool_calls.getD [],
      ∃ T ∈ msgs, T.role = Role.tool ∧ T.tool_call_id = some tc.id)

instance (msgs : List OpenAIMessage) : Decidable (toolMatchedInv msgs) := by
  unfold toolMatchedInv; infer_instance

lemma mem_toolCallIdsOf {messages : List OpenAIMessage} {x : String} :
    x ∈ toolCallIdsOf messages ↔
      ∃ m, m ∈ messages ∧ m.role = Role.assistant ∧
        ∃ tc, tc ∈ m.tool_calls.getD [] ∧ tc.id = x := by
  unfold toolCallIdsOf
  rw [List.mem_flatMap]
  constructor
  · rintro ⟨m, hm, hx⟩
    by_cases h : m.role = Role.assistant
    · rw [if_pos h] at hx
      rcases List.mem_map.mp hx with ⟨tc, htc, rfl⟩
      exact ⟨m, hm, h, tc, htc, rfl⟩
    · rw [if_neg h] at hx
      simp at hx
  · rintro ⟨m, hm, h, tc, htc, rfl⟩
    exact ⟨m, hm, by rw [if_pos h]; exact List.mem_map_of_mem _ htc⟩

lemma hasToolResponse_iff {messages : List OpenAIMessage} {i : String} :
    hasToolResponse messages i = true ↔
      ∃ T, T ∈ messages ∧ T.role = Role.tool ∧ T.tool_call_id = some i := by
  unfold hasToolResponse
  rw [List.any_eq_true]
  simp

lemma cleanMessage_of_tool_some {messages : List OpenAIMessage} {m : OpenAIMessage}
    {tid : String} (hr : m.role = Role.tool) (hid : m.tool_call_id = some tid) :
    cleanMessage messages m =
      if tid ≠ "" ∧ tid ∈ toolCallIdsOf messages then some m else none := by
  unfold cleanMessage; rw [hr, hid]

lemma cleanMessage_of_tool_none {messages : List OpenAIMessage} {m : OpenAIMessage}
    (hr : m.role = Role.tool) (hid : m.tool_call_id = none) :
    cleanMessage messages m = none := by
  unfold cleanMessage; rw [hr, hid]

lemma cleanMessage_of_assistant_some {messages : List OpenAIMessage} {m : OpenAIMessage}
    {tcs : List OpenAIToolCall} (hr : m.role = Role.assistant) (htc : m.tool_calls = some tcs) :
    cleanMessage messages m =
      some { m with tool_calls :=
        (if (tcs.filter fun tc => hasToolResponse messages tc.id).isEmpty then none
         else some (tcs.filter fun tc => hasToolResponse messages tc.id)) } := by
  unfold cleanMessage; rw [hr, htc]

lemma cleanMessage_of_assistant_none {messages : List OpenAIMessage} {m : OpenAIMessage}
    (hr : m.role = Role.assistant) (htc : m.tool_calls = none) :
    cleanMessage messages m = some m := by
  unfold cleanMessage; rw [hr, htc]

lemma cleanMessage_of_system {messages : List OpenAIMessage} {m : OpenAIMessage}
    (hr : m.role = Role.system) :
    cleanMessage messages m = some m := by
  unfold cleanMessage; rw [hr]

lemma cleanMessage_of_user {messages : List OpenAIMessage} {m : OpenAIMessage}
    (hr : m.role = Role.user) :
    cleanMessage messages m = some m := by
  unfold cleanMessage; rw [hr]

lemma mem_clean_iff {messages : List OpenAIMessage} {m' : OpenAIMessage} :
    m' ∈ cleanOrphanedToolCalls messages ↔
      ∃ m, m ∈ messages ∧ cleanMessage messages m = some m' := by
  unfold cleanOrphanedToolCalls
  rw [List.mem_filterMap]

lemma isEmpty_false_of_mem {α : Type} {a : α} {l : List α} (h : a ∈ l) :
    l.isEmpty = false := by
  cases l with
  | nil => cases h
  | cons b t => rfl

lemma clean_tool_answered {messages : List OpenAIMessage} {T : OpenAIMessage}
    (hT : T ∈ cleanOrphanedToolCalls messages) (hrole : T.role = Role.tool) :
    ∃ A ∈ cleanOrphanedToolCalls messages, A.role = Role.assistant ∧
      ∃ tc ∈ A.tool_calls.getD [], some tc.id = T.tool_call_id := by
  rcases mem_clean_iff.mp hT with ⟨m, hm, hclean⟩
  cases hr : m.role with
  | system =>
    rw [cleanMessage_of_system hr] at hclean
    cases hclean
    rw [hr] at hrole; cases hrole
  | user =>
    rw [cleanMessage_of_user hr] at hclean
    cases hclean
    rw [hr] at hrole; cases hrole
  | assistant =>
    cases htc : m.tool_calls with
    | none =>
      rw [cleanMessage_of_assistant_none hr htc] at hclean
      cases hclean
      rw [hr] at hrole; cases hrole
    | some tcs =>
      rw [cleanMessage_of_assistant_some hr htc] at hclean
      cases hclean
      simp [hr] at hrole
  | tool =>
    cases hid : m.tool_call_id with
    | none =>
      rw [cleanMessage_of_tool_none hr hid] at hclean
      cases hclean
    | some tid =>
      rw [cleanMessage_of_tool_some hr hid] at hclean
      by_cases hcond : tid ≠ "" ∧ tid ∈ toolCallIdsOf messages
      · rw [if_pos hcond] at hclean
        cases hclean
        rcases mem_toolCallIdsOf.mp hcond.2 with ⟨A, hA, hArole, tc, htcmem, htcid⟩
        cases hAtc : A.tool_calls with
        | none => rw [hAtc] at htcmem; simp at htcmem
        | some tcs =>
          rw [hAtc] at htcmem
          simp only [Option.getD_some] at htcmem
          have hresp : hasToolResponse messages tc.id = true :=
            hasToolResponse_iff.mpr ⟨T, hm, hr, by rw [hid, htcid]⟩
          have hmemf : tc ∈ tcs.filter fun x => hasToolResponse messages x.id :=
            List.mem_filter.mpr ⟨htcmem, hresp⟩
          have hne : (tcs.filter fun x => hasToolResponse messages x.id).isEmpty = false :=
            isEmpty_false_of_mem hmemf
          refine ⟨{ A with tool_calls :=
            (if (tcs.filter fun x => hasToolResponse messages x.id).isEmpty then none
             else some (tcs.filter fun x => hasToolResponse messages x.id)) },
            mem_clean_iff.mpr ⟨A, hA, cleanMessage_of_assistant_some hArole hAtc⟩, ?_, ?_⟩
          · simpa using hArole
          · refine ⟨tc, ?_, by rw [hid, htcid]⟩
            simp only [hne, Bool.false_eq_true, if_false, Option.getD_some]
            exact hmemf
      · rw [if_neg hcond] at hclean
        cases hclean

lemma clean_entry_answered {messages : List OpenAIMessage} {A : OpenAIMessage}
    {tc : OpenAIToolCall}
    (hids : ∀ m ∈ messages, m.role = Role.tool → m.tool_call_id ≠ some "")
    (hA : A ∈ cleanOrphanedToolCalls messages) (hrole : A.role = Role.assistant)
    (htc : tc ∈ A.tool_calls.getD []) :
    ∃ T ∈ cleanOrphanedToolCalls messages, T.role = Role.tool ∧
      T.tool_call_id = some tc.id := by
  rcases mem_clean_iff.mp hA with ⟨m, hm, hclean⟩
  cases hr : m.role with
  | system =>
    rw [cleanMessage_of_system hr] at hclean
    cases hclean
    rw [hr] at hrole; cases hrole
  | user =>
    rw [cleanMessage_of_user hr] at hclean
    cases hclean
    rw [hr] at hrole; cases hrole
  | tool =>
    cases hid : m.tool_call_id with
    | none =>
      rw [cleanMessage_of_tool_none hr hid] at hclean
      cases hclean
    | some tid =>
      rw [cleanMessage_of_tool_some hr hid] at hclean
      by_cases hcond : tid ≠ "" ∧ tid ∈ toolCallIdsOf messages
      · rw [if_pos hcond] at hclean
        cases hclean
        rw [hr] at hrole; cases hrole
      · rw [if_neg hcond] at hclean
        cases hclean
  | assistant =>
    cases hmt : m.tool_calls with
    | none =>
      rw [cleanMessage_of_assistant_none hr hmt] at hclean
      cases hclean
      rw [hmt] at htc
      simp at htc
    | some tcs =>
      rw [cleanMessage_of_assistant_some hr hmt] at hclean
      cases hclean
      by_cases hie : (tcs.filter fun x => hasToolResponse messages x.id).isEmpty = true
      · simp only [hie, if_true, Option.getD_none] at htc
        simp at htc
      · simp only [hie, Bool.false_eq_true, if_false, Option.getD_some] at htc
        rcases List.mem_filter.mp htc with ⟨htcs, hresp⟩
        rcases hasToolResponse_iff.mp hresp with ⟨T0, hT0m, hT0r, hT0id⟩
        have hne : tc.id ≠ "" := by
          intro h0
          exact hids T0 hT0m hT0r (by rw [hT0id, h0])
        have hmemids : tc.id ∈ toolCallIdsOf messages :=
          mem_toolCallIdsOf.mpr ⟨m, hm, hr, tc, by rw [hmt]; simpa using htcs, rfl⟩
        have hkeep : cleanMessage messages T0 = some T0 := by
          rw [cleanMessage_of_tool_some hT0r hT0id, if_pos ⟨hne, hmemids⟩]
        exact ⟨T0, mem_clean_iff.mpr ⟨T0, hT0m, hkeep⟩, hT0r, hT0id⟩

lemma filterMap_self_of {α : Type} {l : List α} {f : α → Option α}
    (h : ∀ x ∈ l, f x = some x) : l.filterMap f = l := by
  induction l with
  | nil => rfl
  | cons a t ih =>
    simp only [List.filterMap_cons, h a (List.mem_cons_self a t)]
    rw [ih (fun x hx => h x (List.mem_cons_of_mem a hx))]

lemma clean_fixed_point {messages : List OpenAIMessage}
    (hids : ∀ m ∈ messages, m.role = Role.tool → m.tool_call_id ≠ some "") :
    ∀ m' ∈ cleanOrphanedToolCalls messages,
      cleanMessage (cleanOrphanedToolCalls messages) m' = some m' := by
  intro m' hm'
  rcases mem_clean_iff.mp hm' with ⟨m, hm, hclean⟩
  cases hr : m.role with
  | system =>
    rw [cleanMessage_of_system hr] at hclean
    cases hclean
    exact cleanMessage_of_system hr
  | user =>
    rw [cleanMessage_of_user hr] at hclean
    cases hclean
    exact cleanMessage_of_user hr
  | tool =>
    cases hid : m.tool_call_id with
    | none =>
      rw [cleanMessage_of_tool_none hr hid] at hclean
      cases hclean
    | some tid =>
      rw [cleanMessage_of_tool_some hr hid] at hclean
      by_cases hcond : tid ≠ "" ∧ tid ∈ toolCallIdsOf messages
      · rw [if_pos hcond] at hclean
        cases hclean
        rcases clean_tool_answered hm' hr with ⟨A, hA, hArole, tc, htcmem, htcid⟩
        have htid2 : tc.id = tid := by
          rw [hid] at htcid
          exact Option.some.inj htcid
        have hmem2 : tid ∈ toolCallIdsOf (cleanOrphanedToolCalls messages) :=
          mem_toolCallIdsOf.mpr ⟨A, hA, hArole, tc, htcmem, htid2⟩
        rw [cleanMessage_of_tool_some hr hid, if_pos ⟨hcond.1, hmem2⟩]
      · rw [if_neg hcond] at hclean
        cases hclean
  | assistant =>
    cases hmt : m.tool_calls with
    | none =>
      rw [cleanMessage_of_assistant_none hr hmt] at hclean
      cases hclean
      exact cleanMessage_of_assistant_none hr hmt
    | some tcs =>
      rw [cleanMessage_of_assistant_some hr hmt] at hclean
      cases hclean
      by_cases hie : (tcs.filter fun x => hasToolResponse messages x.id).isEmpty = true
      · simp only [hie, if_true]
        exact cleanMessage_of_assistant_none (by simpa using hr) (by simp)
      · have hie2 := hie
        simp only [hie, Bool.false_eq_true, if_false]
        set valid := tcs.filter fun x => hasToolResponse messages x.id with hvalid
        have hA' : ({ m with tool_calls := some valid } : OpenAIMessage)
            ∈ cleanOrphanedToolCalls messages := by
          refine mem_clean_iff.mpr ⟨m, hm, ?_⟩
          rw [cleanMessage_of_assistant_some hr hmt, ← hvalid]
          simp only [hie, Bool.false_eq_true, if_false]
        have hall : ∀ x ∈ valid, hasToolResponse (cleanOrphanedToolCalls messages) x.id = true := by
          intro x hx
          rcases clean_entry_answered hids hA' (by simpa using hr)
              (by simpa using hx) with ⟨T, hT, hTr, hTid⟩
          exact hasToolResponse_iff.mpr ⟨T, hT, hTr, hTid⟩
        have hfe : valid.filter (fun x => hasToolResponse (cleanOrphanedToolCalls messages) x.id) = valid :=
          List.filter_eq_self.mpr hall
        have htcv : ({ m with tool_calls := some valid } : OpenAIMessage).tool_calls =
            some valid := rfl
        rw [cleanMessage_of_assistant_some (m := { m with tool_calls := some valid })
            (by simpa using hr) htcv, hfe]
        have hne : valid.isEmpty = false := by
          cases hvf : valid with
          | nil => rw [hvf] at hie2; simp at hie2
          | cons a t => rfl
        simp only [hne, Bool.false_eq_true, if_false]

/-! ## Concrete message lists used as counterexamples and witnesses -/

/-- An assistant message carrying a tool call whose id is the empty
string, answered by a tool message with an empty tool_call_id: the
JavaScript truthiness test of the second pass drops the tool message,
while the strict-equality filter keeps the assistant entry. -/
def exClean : List OpenAIMessage :=
  [{ role := Role.assistant, content := none,
     tool_calls := some [{ id := "", type := "function",
                           function := { name := "f", arguments := "\x7b\x7d" } }] },
   { role := Role.tool, content := some "result", tool_call_id := some "" }]

/-- A well-formed pair: assistant tool call `call_1` answered by a tool
message. -/
def exGoodCall : OpenAIToolCall :=
  { id := "call_1", type := "function", function := { name := "f", arguments := "\x7b\x7d" } }

/-- The assistant message of `exGood`. -/
def exGoodAssistant : OpenAIMessage :=
  { role := Role.assistant, content := none, tool_calls := some [exGoodCall] }

/-- A two-message list satisfying the pairing invariant. -/
def exGood : List OpenAIMessage :=
  [exGoodAssistant,
   { role := Role.tool, content := some "ok", tool_call_id := some "call_1" }]

/-- A tool message placed BEFORE the assistant message that carries the
matching tool call: no tool message occurs later than the assistant
message. -/
def exBefore : List OpenAIMessage :=
  [{ role := Role.tool, content := some "result", tool_call_id := some "a" },
   { role := Role.assistant, content := none,
     tool_calls := some [{ id := "a", type := "function",
                           function := { name := "f", arguments := "\x7b\x7d" } }] }]

/-- The claim's reading of cleanOrphanedToolCalls: identical to the
implementation except that an assistant message at position i keeps only
tool_calls entries answered by a tool message occurring strictly later
than position i in the original list. -/
def cleanOrphanedToolCallsLater (messages : List OpenAIMessage) : List OpenAIMessage :=
  messages.enum.filterMap fun im =>
    match im.2.role with
    | Role.tool =>
      match im.2.tool_call_id with
      | some tid => if tid ≠ "" ∧ tid ∈ toolCallIdsOf messages then some im.2 else none
      | none => none
    | Role.assistant =>
      match im.2.tool_calls with
      | some tcs =>
        let valid := tcs.filter fun tc =>
          (messages.drop (im.1 + 1)).any fun T =>
            decide (T.role = Role.tool ∧ T.tool_call_id = some tc.id)
        some { im.2 with tool_calls := (if valid.isEmpty then none else some valid) }
      | none => some im.2
    | _ => some im.2

/-! ## Claims C1, C5, C6 -/

/-- C1 (as stated, refuted): the claim quantifies over EVERY flat message
list, but on `exClean` — whose tool-call id is the empty string — the
cleaned output keeps the assistant's tool_calls entry while the tool
message answering it is dropped by the truthiness test
`message.tool_call_id && ...`, so the pairing invariant fails after
cleaning. -/
theorem claim1_counterexample : ¬ toolMatchedInv (cleanOrphanedToolCalls exClean) := by
  decide

/-- C1 (amended): for every flat message list in which no tool message
carries an empty-string tool_call_id, after cleanOrphanedToolCalls every
remaining tool message's tool_call_id equals the id of some tool_calls
entry remaining on some assistant message of the output, and every
remaining assistant tool_calls entry has a matching tool message
remaining in the output. -/
theorem claim1_amended :
    ∀ messages : List OpenAIMessage,
      (∀ m ∈ messages, m.role = Role.tool → m.tool_call_id ≠ some "") →
      toolMatchedInv (cleanOrphanedToolCalls messages) := by
  intro messages hids
  exact ⟨fun T hT hr => clean_tool_answered hT hr,
         fun A hA hr tc htc => clean_entry_answered hids hA hr htc⟩

/-- Witness for C1 (amended) at the concrete list `exGood`. -/
theorem claim1_witness :
    (∀ m ∈ exGood, m.role = Role.tool → m.tool_call_id ≠ some "") ∧
    toolMatchedInv (cleanOrphanedToolCalls exGood) :=
  ⟨by decide, claim1_amended exGood (by decide)⟩

/-- C5 (as stated, refuted): the implementation's filter searches the
WHOLE original list (`messages.some(...)`), not only the part after the
assistant message; on `exBefore` — tool answer placed before the call —
the code keeps the entry while the claim's later-only filter would drop
the field. -/
theorem claim5_counterexample :
    cleanOrphanedToolCalls exBefore ≠ cleanOrphanedToolCallsLater exBefore := by
  decide

/-- C5 (amended): an assistant message's tool_calls array is filtered to
exactly those entries answered by some tool message ANYWHERE in the
original unfiltered list, and if no entry survives the field is absent in
the output rather than an empty list (and no assistant message of the
output ever carries an empty tool_calls list). -/
theorem claim5_amended :
    (∀ (messages : List OpenAIMessage) (m : OpenAIMessage) (tcs : List OpenAIToolCall),
      m ∈ messages → m.role = Role.assistant → m.tool_calls = some tcs →
      ({ m with tool_calls :=
        (if (tcs.filter fun tc => decide (∃ T, T ∈ messages ∧ T.role = Role.tool ∧
              T.tool_call_id = some tc.id)).isEmpty
         then none
         else some (tcs.filter fun tc => decide (∃ T, T ∈ messages ∧ T.role = Role.tool ∧
              T.tool_call_id = some tc.id))) } : OpenAIMessage)
        ∈ cleanOrphanedToolCalls messages) ∧
    (∀ (messages : List OpenAIMessage) (a : OpenAIMessage),
      a ∈ cleanOrphanedToolCalls messages → a.role = Role.assistant →
      a.tool_calls ≠ some []) := by
  constructor
  · intro messages m tcs hm hr htc
    have hfc : (tcs.filter fun tc => decide (∃ T, T ∈ messages ∧ T.role = Role.tool ∧
          T.tool_call_id = some tc.id)) =
        tcs.filter fun tc => hasToolResponse messages tc.id := by
      apply List.filter_congr
      intro tc _
      cases hb : hasToolResponse messages tc.id with
      | true => exact decide_eq_true (hasToolResponse_iff.mp hb)
      | false =>
        apply decide_eq_false
        intro hex
        rw [hasToolResponse_iff.mpr hex] at hb
        cases hb
    rw [hfc]
    exact mem_clean_iff.mpr ⟨m, hm, cleanMessage_of_assistant_some hr htc⟩
  · intro messages a ha hrole hsome
    rcases mem_clean_iff.mp ha with ⟨m, hm, hclean⟩
    cases hr : m.role with
    | system =>
      rw [cleanMessage_of_system hr] at hclean
      cases hclean
      rw [hr] at hrole; cases hrole
    | user =>
      rw [cleanMessage_of_user hr] at hclean
      cases hclean
      rw [hr] at hrole; cases hrole
    | tool =>
      cases hid : m.tool_call_id with
      | none =>
        rw [cleanMessage_of_tool_none hr hid] at hclean
        cases hclean
      | some tid =>
        rw [cleanMessage_of_tool_some hr hid] at hclean
        by_cases hcond : tid ≠ "" ∧ tid ∈ toolCallIdsOf messages
        · rw [if_pos hcond] at hclean
          cases hclean
          rw [hr] at hrole; cases hrole
        · rw [if_neg hcond] at hclean
          cases hclean
    | assistant =>
      cases hmt : m.tool_calls with
      | none =>
        rw [cleanMessage_of_assistant_none hr hmt] at hclean
        cases hclean
        rw [hmt] at hsome
        cases hsome
      | some tcs =>
        rw [cleanMessage_of_assistant_some hr hmt] at hclean
        cases hclean
        simp only at hsome
        by_cases hie : (tcs.filter fun x => hasToolResponse messages x.id).isEmpty = true
        · rw [if_pos hie] at hsome
          cases hsome
        · rw [if_neg hie] at hsome
          have : (tcs.filter fun x => hasToolResponse messages x.id) = [] :=
            Option.some.inj hsome
          rw [this] at hie
          exact hie rfl

/-- Witness for C5 (amended) at the concrete list `exGood`. -/
theorem claim5_witness :
    ({ exGoodAssistant with tool_calls :=
      (if (([exGoodCall].filter fun tc => decide (∃ T, T ∈ exGood ∧ T.role = Role.tool ∧
            T.tool_call_id = some tc.id))).isEmpty
       then none
       else some ([exGoodCall].filter fun tc => decide (∃ T, T ∈ exGood ∧ T.role = Role.tool ∧
            T.tool_call_id = some tc.id))) } : OpenAIMessage)
      ∈ cleanOrphanedToolCalls exGood :=
  claim5_amended.1 exGood exGoodAssistant [exGoodCall] (by decide) rfl rfl

/-- C6 (as stated, refuted): cleanOrphanedToolCalls is not idempotent on
every list; on `exClean` the first pass keeps the empty-id assistant
entry (its tool answer is still present in the original list) while
dropping the tool message, so a second pass then drops the entry too. -/
theorem claim6_counterexample :
    cleanOrphanedToolCalls (cleanOrphanedToolCalls exClean) ≠ cleanOrphanedToolCalls exClean := by
  decide

/-- C6 (amended): on every flat message list in which no tool message
carries an empty-string tool_call_id, cleanOrphanedToolCalls is
idempotent. -/
theorem claim6_amended :
    ∀ messages : List OpenAIMessage,
      (∀ m ∈ messages, m.role = Role.tool → m.tool_call_id ≠ some "") →
      cleanOrphanedToolCalls (cleanOrphanedToolCalls messages) = cleanOrphanedToolCalls messages := by
  intro messages hids
  exact filterMap_self_of (clean_fixed_point hids)

/-- Witness for C6 (amended) at the concrete list `exGood`. -/
theorem claim6_witness :
    (∀ m ∈ exGood, m.role = Role.tool → m.tool_call_id ≠ some "") ∧
    cleanOrphanedToolCalls (cleanOrphanedToolCalls exGood) = cleanOrphanedToolCalls exGood :=
  ⟨by decide, claim6_amended exGood (by decide)⟩

/-! ## Claims C2, C3, C7 -/

lemma buildFunctionCallParts_no_emptyResponse :
    ∀ tcs : List OpenAIToolCall,
      buildFunctionCallParts tcs ≠ Except.error ConvError.emptyResponse := by
  intro tcs
  induction tcs with
  | nil => simp [buildFunctionCallParts]
  | cons tc rest ih =>
    simp only [buildFunctionCallParts]
    by_cases ht : tc.type = "function"
    · rw [if_pos ht]
      cases hp : parseJsonTop (if tc.function.arguments = "" then "\x7b\x7d"
          else tc.function.arguments) with
      | some j =>
        cases hb : buildFunctionCallParts rest with
        | error e =>
          intro h
          simp only [Except.map, Except.error.injEq] at h
          subst h
          exact ih hb
        | ok ps =>
          intro h
          simp only [Except.map] at h
          cases h
      | none =>
        intro h
        cases h
    · rw [if_neg ht]
      exact ih

lemma buildFunctionCallParts_ok_of :
    ∀ tcs : List OpenAIToolCall,
      (∀ tc ∈ tcs, tc.type = "function" →
        (parseJsonTop (if tc.function.arguments = "" then "\x7b\x7d"
          else tc.function.arguments)).isSome = true) →
      ∃ ps, buildFunctionCallParts tcs = Except.ok ps := by
  intro tcs
  induction tcs with
  | nil => exact fun _ => ⟨[], rfl⟩
  | cons tc rest ih =>
    intro h
    have hrest := ih (fun x hx hty => h x (List.mem_cons_of_mem tc hx) hty)
    rcases hrest with ⟨ps, hps⟩
    simp only [buildFunctionCallParts]
    by_cases ht : tc.type = "function"
    · rw [if_pos ht]
      have hs := h tc (List.mem_cons_self tc rest) ht
      rcases Option.isSome_iff_exists.mp hs with ⟨j, hj⟩
      rw [hj, hps]
      exact ⟨GPart.functionCall tc.function.name (some j) :: ps, rfl⟩
    · rw [if_neg ht]
      exact ⟨ps, hps⟩

/-- C2 (confirmed): the finish-reason mapping is a total deterministic
function on strings — stop↦STOP, length↦MAX_TOKENS, tool_calls↦STOP,
content_filter↦SAFETY, anything else (including "") ↦OTHER — and the very
same mapFinishReason computes the finishReason of both the full-response
translation and (on a truthy chunk finish_reason) the chunk
translation. -/
theorem claim2_finish_reason_mapping :
    mapFinishReason "stop" = FinishReason.STOP ∧
    mapFinishReason "length" = FinishReason.MAX_TOKENS ∧
    mapFinishReason "tool_calls" = FinishReason.STOP ∧
    mapFinishReason "content_filter" = FinishReason.SAFETY ∧
    mapFinishReason "" = FinishReason.OTHER ∧
    (∀ s : String, s ≠ "stop" → s ≠ "length" → s ≠ "tool_calls" → s ≠ "content_filter" →
      mapFinishReason s = FinishReason.OTHER) ∧
    (∀ (completion : ChatCompletion) (choice : CompletionChoice)
        (rest : List CompletionChoice) (r : GenerateContentResponse),
      completion.choices = choice :: rest →
      convertToGeminiFormat completion = Except.ok r →
      r.candidates.map (fun c => c.finishReason) =
        [some (mapFinishReason choice.finish_reason)]) ∧
    (∀ (chunk : ChatCompletionChunk) (choice : ChunkChoice) (rest : List ChunkChoice)
        (r : GenerateContentResponse) (fr : String),
      chunk.choices = choice :: rest →
      choice.finish_reason = some fr → fr ≠ "" →
      convertStreamChunkToGeminiFormat chunk = Except.ok r →
      r.candidates.map (fun c => c.finishReason) = [some (mapFinishReason fr)]) := by
  refine ⟨rfl, rfl, rfl, rfl, rfl, ?_, ?_, ?_⟩
  · intro s h1 h2 h3 h4
    unfold mapFinishReason
    rw [if_neg h1, if_neg h2, if_neg h3, if_neg h4]
  · intro completion choice rest r hch hok
    obtain ⟨chs, usage⟩ := completion
    have hch' : chs = choice :: rest := hch
    subst hch'
    unfold convertToGeminiFormat at hok
    simp only at hok
    cases hb : buildFunctionCallParts (choice.message.tool_calls.getD []) with
    | error e =>
      rw [hb] at hok
      cases hok
    | ok callParts =>
      rw [hb] at hok
      cases hok
      simp
  · intro chunk choice rest r fr hch hfr hne hok
    obtain ⟨chs⟩ := chunk
    have hch' : chs = choice :: rest := hch
    subst hch'
    unfold convertStreamChunkToGeminiFormat at hok
    simp only at hok
    cases hb : buildDeltaCallParts (choice.delta.tool_calls.getD []) with
    | error e =>
      rw [hb] at hok
      cases hok
    | ok callParts =>
      rw [hb, hfr] at hok
      simp only [if_neg hne] at hok
      cases hok
      simp

/-- Witness for C2 at a string outside the four mapped cases. -/
theorem claim2_witness : mapFinishReason "eos" = FinishReason.OTHER :=
  claim2_finish_reason_mapping.2.2.2.2.2.1 "eos"
    (by decide) (by decide) (by decide) (by decide)

/-- A one-choice response whose tool call carries arguments that are not
valid JSON: JSON.parse throws, so translation fails although a choice is
present. -/
def exMalformed : ChatCompletion :=
  { choices :=
      [{ message :=
           { content := none,
             tool_calls := some
               [{ id := "call_x", type := "function",
                  function := { name := "f", arguments := "not json" } }] },
         finish_reason := "stop" }] }

/-- C3 (as stated, refuted): a response with one choice does NOT always
return normally — on `exMalformed` the translation raises the JSON parse
error for the tool call's arguments. -/
theorem claim3_counterexample :
    convertToGeminiFormat exMalformed =
      Except.error (ConvError.malformedArguments "not json") ∧
    exMalformed.choices.length = 1 :=
  ⟨rfl, rfl⟩

/-- C3 (amended): convertToGeminiFormat raises EmptyResponseError exactly
when the choices list is empty; with at least one choice it returns
normally PROVIDED every function-typed tool call of choice 0 carries
JSON-parseable arguments (the empty string counting as the empty
object); and the result depends on choice 0 only. -/
theorem claim3_amended :
    (∀ completion : ChatCompletion,
      completion.choices = [] ↔
        convertToGeminiFormat completion = Except.error ConvError.emptyResponse) ∧
    (∀ (completion : ChatCompletion) (choice : CompletionChoice)
        (rest : List CompletionChoice),
      completion.choices = choice :: rest →
      (∀ tc ∈ choice.message.tool_calls.getD [], tc.type = "function" →
        (parseJsonTop (if tc.function.arguments = "" then "\x7b\x7d"
          else tc.function.arguments)).isSome = true) →
      (convertToGeminiFormat completion).isOk = true) ∧
    (∀ (completion : ChatCompletion) (choice : CompletionChoice)
        (rest : List CompletionChoice),
      completion.choices = choice :: rest →
      convertToGeminiFormat completion =
        convertToGeminiFormat { choices := [choice], usage := completion.usage }) := by
  refine ⟨?_, ?_, ?_⟩
  · intro completion
    obtain ⟨chs, usage⟩ := completion
    cases chs with
    | nil => exact ⟨fun _ => rfl, fun _ => rfl⟩
    | cons choice rest =>
      constructor
      · intro h
        cases h
      · intro h
        exfalso
        unfold convertToGeminiFormat at h
        simp only at h
        cases hb : buildFunctionCallParts (choice.message.tool_calls.getD []) with
        | error e =>
          rw [hb] at h
          cases h
          exact buildFunctionCallParts_no_emptyResponse _ hb
        | ok callParts =>
          rw [hb] at h
          cases h
  · intro completion choice rest hch hparse
    obtain ⟨chs, usage⟩ := completion
    have hch' : chs = choice :: rest := hch
    subst hch'
    rcases buildFunctionCallParts_ok_of _ hparse with ⟨ps, hps⟩
    unfold convertToGeminiFormat
    simp only
    rw [hps]
    rfl
  · intro completion choice rest hch
    obtain ⟨chs, usage⟩ := completion
    have hch' : chs = choice :: rest := hch
    subst hch'
    rfl

/-- A plain one-choice text response. -/
def exSimpleOk : ChatCompletion :=
  { choices := [{ message := { content := some "hi", tool_calls := none },
                  finish_reason := "stop" }] }

/-- Witness for C3 (amended) at `exSimpleOk`. -/
theorem claim3_witness : (convertToGeminiFormat exSimpleOk).isOk = true :=
  claim3_amended.2.1 exSimpleOk
    { message := { content := some "hi", tool_calls := none }, finish_reason := "stop" }
    [] rfl (by decide)

/-- C7 (confirmed): a chunk with zero choices translates to a response
with an empty candidate list and no error, while a full response with
zero choices fails with EmptyResponseError. -/
theorem claim7_chunk_empty_choices :
    (∀ chunk : ChatCompletionChunk, chunk.choices = [] →
      convertStreamChunkToGeminiFormat chunk =
        Except.ok { candidates := [], usageMetadata := none }) ∧
    (∀ completion : ChatCompletion, completion.choices = [] →
      convertToGeminiFormat completion = Except.error ConvError.emptyResponse) := by
  constructor
  · intro chunk h
    obtain ⟨chs⟩ := chunk
    have h' : chs = [] := h
    subst h'
    rfl
  · intro completion h
    obtain ⟨chs, usage⟩ := completion
    have h' : chs = [] := h
    subst h'
    rfl

/-- Witness for C7 at the empty chunk. -/
theorem claim7_witness :
    convertStreamChunkToGeminiFormat { choices := [] } =
      Except.ok { candidates := [], usageMetadata := none } :=
  claim7_chunk_empty_choices.1 { choices := [] } rfl

/-! ## Claim C4 -/

/-- Two model turns, each with one function call and no arguments.
Nothing in the converter makes Date.now advance between the turns, so
the constant clock (two calls within the same millisecond) is a
legitimate execution. -/
def exTwoCallTurns : GenerateContentParameters :=
  { contents :=
      [{ role := "model", parts := some [GPart.functionCall "f" none] },
       { role := "model", parts := some [GPart.functionCall "g" none] }] }

/-- C4 (code bug): each turn's function calls do become one flat
assistant message with null content and one tool_calls entry per call,
but the synthesized ids `call_(Date.now())_(index)` restart the index at
0 for every turn, so two turns translated within the same millisecond
(clock constantly 0 here) both produce the id "call_0_0" — the ids are
NOT unique across the whole translated list, violating the stated design
requirement. -/
theorem claim4_duplicate_ids :
    (convertGeminiParametersToOpenAI (fun _ => 0) exTwoCallTurns "llama").messages =
      [{ role := Role.assistant, content := none,
         tool_calls := some
           [{ id := "call_0_0", type := "function",
              function := { name := "f", arguments := "\x7b\x7d" } }] },
       { role := Role.assistant, content := none,
         tool_calls := some
           [{ id := "call_0_0", type := "function",
              function := { name := "g", arguments := "\x7b\x7d" } }] }] := by
  decide

/-! ## Claim C10 -/

/-- No two adjacent messages of the list are both assistant messages. -/
def noTwoAdjacentAssistants : List OpenAIMessage → Prop
  | m1 :: m2 :: rest =>
    ¬(m1.role = Role.assistant ∧ m2.role = Role.assistant) ∧
    noTwoAdjacentAssistants (m2 :: rest)
  | _ => True

lemma mergeAux_nil_some (c : OpenAIMessage) : mergeAux (some c) [] = [c] := rfl

lemma mergeAux_cons_assistant_some (c m : OpenAIMessage) (rest : List OpenAIMessage)
    (hm : m.role = Role.assistant) :
    mergeAux (some c) (m :: rest) = mergeAux (some (mergeTwoAssistant c m)) rest := by
  simp only [mergeAux, if_pos hm]

lemma mergeAux_cons_assistant_none (m : OpenAIMessage) (rest : List OpenAIMessage)
    (hm : m.role = Role.assistant) :
    mergeAux none (m :: rest) = mergeAux (some m) rest := by
  simp only [mergeAux, if_pos hm]

lemma mergeAux_cons_other_some (c m : OpenAIMessage) (rest : List OpenAIMessage)
    (hm : ¬m.role = Role.assistant) :
    mergeAux (some c) (m :: rest) = c :: m :: mergeAux none rest := by
  simp only [mergeAux, if_neg hm]

lemma mergeAux_cons_other_none (m : OpenAIMessage) (rest : List OpenAIMessage)
    (hm : ¬m.role = Role.assistant) :
    mergeAux none (m :: rest) = m :: mergeAux none rest := by
  simp only [mergeAux, if_neg hm]

lemma noAdj_cons {m : OpenAIMessage} {X : List OpenAIMessage}
    (hm : m.role ≠ Role.assistant) (hX : noTwoAdjacentAssistants X) :
    noTwoAdjacentAssistants (m :: X) := by
  cases X with
  | nil => trivial
  | cons h t => exact ⟨fun hc => hm hc.1, hX⟩

lemma noAdj_tail {m : OpenAIMessage} {X : List OpenAIMessage}
    (h : noTwoAdjacentAssistants (m :: X)) : noTwoAdjacentAssistants X := by
  cases X with
  | nil => trivial
  | cons h2 t => exact h.2

lemma noAdj_mergeAux : ∀ (l : List OpenAIMessage) (cur : Option OpenAIMessage),
    noTwoAdjacentAssistants (mergeAux cur l) := by
  intro l
  induction l with
  | nil =>
    intro cur
    cases cur with
    | none => trivial
    | some c => trivial
  | cons m rest ih =>
    intro cur
    by_cases hm : m.role = Role.assistant
    · cases cur with
      | some c => rw [mergeAux_cons_assistant_some c m rest hm]; exact ih _
      | none => rw [mergeAux_cons_assistant_none m rest hm]; exact ih _
    · cases cur with
      | some c =>
        rw [mergeAux_cons_other_some c m rest hm]
        exact ⟨fun hc => hm hc.2, noAdj_cons hm (ih none)⟩
      | none =>
        rw [mergeAux_cons_other_none m rest hm]
        exact noAdj_cons hm (ih none)

lemma mergeAux_fixed : ∀ {l : List OpenAIMessage}, noTwoAdjacentAssistants l →
    mergeAux none l = l := by
  intro l
  induction l with
  | nil => intro _; rfl
  | cons m rest ih =>
    intro h
    by_cases hm : m.role = Role.assistant
    · rw [mergeAux_cons_assistant_none m rest hm]
      cases rest with
      | nil => rfl
      | cons p t =>
        have hp : p.role ≠ Role.assistant := fun hpa => h.1 ⟨hm, hpa⟩
        rw [mergeAux_cons_other_some m p t hp]
        have ht : mergeAux none (p :: t) = p :: t := ih (noAdj_tail h)
        rw [mergeAux_cons_other_none p t hp] at ht
        injection ht with h1 h2
        rw [h2]
    · rw [mergeAux_cons_other_none m rest hm]
      rw [ih (noAdj_tail h)]

/-- C10 (confirmed): the output of mergeConsecutiveAssistantMessages
never contains two adjacent assistant messages, and therefore applying
the function twice yields the same result as applying it once. -/
theorem claim10_merge_idempotent :
    ∀ messages : List OpenAIMessage,
      noTwoAdjacentAssistants (mergeConsecutiveAssistantMessages messages) ∧
      mergeConsecutiveAssistantMessages (mergeConsecutiveAssistantMessages messages) =
        mergeConsecutiveAssistantMessages messages := by
  intro messages
  exact ⟨noAdj_mergeAux messages none,
         mergeAux_fixed (noAdj_mergeAux messages none)⟩

/-! ## Claims C8 and C9: characterizing a merged run -/

/-- The merged content of a run, following the code's truthiness filter:
the newline join of the non-null, non-empty member contents, or null when
no such content exists. -/
def normalizedJoin (opts : List (Option String)) : Option String :=
  if (filterBooleanStr opts).isEmpty then none
  else some (joinNl (filterBooleanStr opts))

/-- The content the claim predicts for a merged run: the newline join of
the non-null member contents (empty strings included), or null when that
join is empty. -/
def nonNullJoin (opts : List (Option String)) : Option String :=
  if joinNl (opts.filterMap id) = "" then none
  else some (joinNl (opts.filterMap id))

lemma joinNl_cons_cons (s y : String) (t : List String) :
    joinNl (s :: y :: t) = s ++ "\n" ++ joinNl (y :: t) := rfl

lemma joinNl_append : ∀ (xs : List String) (y : String) (ys : List String), xs ≠ [] →
    joinNl (xs ++ y :: ys) = joinNl xs ++ "\n" ++ joinNl (y :: ys) := by
  intro xs
  induction xs with
  | nil => intro y ys h; exact absurd rfl h
  | cons x xs' ih =>
    intro y ys _
    cases xs' with
    | nil => rfl
    | cons x2 xs'' =>
      have key := ih y ys (by simp)
      simp only [List.cons_append] at key ⊢
      rw [joinNl_cons_cons x x2 (xs'' ++ y :: ys), joinNl_cons_cons x x2 xs'', key]
      simp [String.append_assoc]

lemma joinNl_ne_empty {x : String} {xs : List String} (hx : x ≠ "") :
    joinNl (x :: xs) ≠ "" := by
  cases xs with
  | nil => exact hx
  | cons y t =>
    rw [joinNl_cons_cons]
    intro h
    have hlen := congrArg String.length h
    have h1 : ("\n" : String).length = 1 := rfl
    have h2 : ("" : String).length = 0 := rfl
    simp only [String.length_append, h1, h2] at hlen
    omega

lemma filterBooleanStr_append (l1 l2 : List (Option String)) :
    filterBooleanStr (l1 ++ l2) = filterBooleanStr l1 ++ filterBooleanStr l2 := by
  simp [filterBooleanStr, List.filterMap_append, List.filter_append]

lemma ne_empty_of_mem_filterBooleanStr {s : String} {l : List (Option String)}
    (h : s ∈ filterBooleanStr l) : s ≠ "" := by
  unfold filterBooleanStr at h
  rcases List.mem_filter.mp h with ⟨_, hs⟩
  simpa using hs

lemma fb_single_some_ne {s : String} (h : s ≠ "") :
    filterBooleanStr [some s] = [s] := by
  simp [filterBooleanStr, h]

lemma normalizedJoin_eq_ite (l : List (Option String)) :
    normalizedJoin l =
      if joinNl (filterBooleanStr l) = "" then none
      else some (joinNl (filterBooleanStr l)) := by
  unfold normalizedJoin
  cases hf : filterBooleanStr l with
  | nil => simp [joinNl]
  | cons x t =>
    have hx : x ≠ "" :=
      ne_empty_of_mem_filterBooleanStr (l := l) (by rw [hf]; exact List.mem_cons_self x t)
    have hj := @joinNl_ne_empty x t hx
    simp [hj]

/-- The content computation of one merge step, as performed at
lines 365-374 of the source. -/
def contentStep (o d : Option String) : Option String :=
  let mergedContent := joinNl (filterBooleanStr [o, d])
  if mergedContent = "" then none else some mergedContent

lemma mergeTwoAssistant_content (c m : OpenAIMessage) :
    (mergeTwoAssistant c m).content = contentStep c.content m.content := rfl

lemma mergeTwoAssistant_tool_calls (c m : OpenAIMessage) :
    (mergeTwoAssistant c m).tool_calls =
      some (c.tool_calls.getD [] ++ m.tool_calls.getD []) := rfl

lemma mergeTwoAssistant_role (c m : OpenAIMessage) :
    (mergeTwoAssistant c m).role = Role.assistant := rfl

lemma contentStep_snoc (opts : List (Option String)) (d : Option String) :
    contentStep (normalizedJoin opts) d = normalizedJoin (opts ++ [d]) := by
  cases hf : filterBooleanStr opts with
  | nil =>
    have h0 : normalizedJoin opts = none := by
      unfold normalizedJoin; rw [hf]; rfl
    rw [h0]
    unfold contentStep
    have h1 : filterBooleanStr [none, d] = filterBooleanStr [d] := by
      have := filterBooleanStr_append [none] [d]
      simpa using this
    rw [normalizedJoin_eq_ite, filterBooleanStr_append, hf]
    simp only [List.nil_append]
    rw [h1]
  | cons x t =>
    have hx : x ≠ "" :=
      ne_empty_of_mem_filterBooleanStr (l := opts) (by rw [hf]; exact List.mem_cons_self x t)
    have hJ : joinNl (x :: t) ≠ "" := joinNl_ne_empty hx
    have h0 : normalizedJoin opts = some (joinNl (x :: t)) := by
      unfold normalizedJoin; rw [hf]; simp
    rw [h0]
    unfold contentStep
    have h1 : filterBooleanStr [some (joinNl (x :: t)), d] =
        joinNl (x :: t) :: filterBooleanStr [d] := by
      have he : ([some (joinNl (x :: t)), d] : List (Option String)) =
          [some (joinNl (x :: t))] ++ [d] := rfl
      rw [he, filterBooleanStr_append, fb_single_some_ne hJ]
      rfl
    rw [h1, normalizedJoin_eq_ite, filterBooleanStr_append, hf]
    cases hd : filterBooleanStr [d] with
    | nil =>
      simp only [List.append_nil]
      have hs : joinNl [joinNl (x :: t)] = joinNl (x :: t) := rfl
      rw [hs]
    | cons s t2 =>
      have hja : joinNl ((x :: t) ++ (s :: t2)) =
          joinNl (x :: t) ++ "\n" ++ joinNl (s :: t2) :=
        joinNl_append (x :: t) s t2 (by simp)
      rw [joinNl_cons_cons, hja]

lemma fold_mergeTwo_content : ∀ (rest : List OpenAIMessage) (c : OpenAIMessage)
    (opts : List (Option String)), c.content = normalizedJoin opts →
    (rest.foldl mergeTwoAssistant c).content =
      normalizedJoin (opts ++ rest.map (fun m => m.content)) := by
  intro rest
  induction rest with
  | nil => intro c opts h; simpa using h
  | cons m rest ih =>
    intro c opts h
    rw [List.foldl_cons]
    have hstep : (mergeTwoAssistant c m).content = normalizedJoin (opts ++ [m.content]) := by
      rw [mergeTwoAssistant_content, h, contentStep_snoc]
    have := ih (mergeTwoAssistant c m) (opts ++ [m.content]) hstep
    rw [this]
    simp

lemma fold_mergeTwo_tool_calls : ∀ (rest : List OpenAIMessage) (c : OpenAIMessage)
    (tcs : List OpenAIToolCall), c.tool_calls = some tcs →
    (rest.foldl mergeTwoAssistant c).tool_calls =
      some (tcs ++ rest.flatMap (fun m => m.tool_calls.getD [])) := by
  intro rest
  induction rest with
  | nil => intro c tcs h; simpa using h
  | cons m rest ih =>
    intro c tcs h
    rw [List.foldl_cons]
    have hstep : (mergeTwoAssistant c m).tool_calls =
        some (tcs ++ m.tool_calls.getD []) := by
      rw [mergeTwoAssistant_tool_calls, h]
      rfl
    have := ih (mergeTwoAssistant c m) (tcs ++ m.tool_calls.getD []) hstep
    rw [this]
    simp

lemma fold_mergeTwo_role : ∀ (rest : List OpenAIMessage) (c : OpenAIMessage),
    c.role = Role.assistant → (rest.foldl mergeTwoAssistant c).role = Role.assistant := by
  intro rest
  induction rest with
  | nil => intro c h; simpa using h
  | cons m rest ih =>
    intro c h
    rw [List.foldl_cons]
    exact ih (mergeTwoAssistant c m) (mergeTwoAssistant_role c m)

lemma mergeAux_append_flush : ∀ (pre0 : List OpenAIMessage) (n : OpenAIMessage)
    (X : List OpenAIMessage) (cur : Option OpenAIMessage), n.role ≠ Role.assistant →
    mergeAux cur ((pre0 ++ [n]) ++ X) = mergeAux cur (pre0 ++ [n]) ++ mergeAux none X := by
  intro pre0
  induction pre0 with
  | nil =>
    intro n X cur hn
    simp only [List.nil_append, List.singleton_append]
    cases cur with
    | none =>
      rw [mergeAux_cons_other_none n X hn, mergeAux_cons_other_none n [] hn]
      rfl
    | some c =>
      rw [mergeAux_cons_other_some c n X hn, mergeAux_cons_other_some c n [] hn]
      rfl
  | cons a pre0 ih =>
    intro n X cur hn
    simp only [List.cons_append]
    by_cases ha : a.role = Role.assistant
    · cases cur with
      | some c =>
        rw [mergeAux_cons_assistant_some c a _ ha, mergeAux_cons_assistant_some c a _ ha]
        exact ih n X _ hn
      | none =>
        rw [mergeAux_cons_assistant_none a _ ha, mergeAux_cons_assistant_none a _ ha]
        exact ih n X _ hn
    · cases cur with
      | some c =>
        rw [mergeAux_cons_other_some c a _ ha, mergeAux_cons_other_some c a _ ha]
        rw [ih n X none hn]
        rfl
      | none =>
        rw [mergeAux_cons_other_none a _ ha, mergeAux_cons_other_none a _ ha]
        rw [ih n X none hn]
        rfl

lemma mergeAux_run : ∀ (rrest : List OpenAIMessage) (c : OpenAIMessage)
    (post : List OpenAIMessage), (∀ m ∈ rrest, m.role = Role.assistant) →
    mergeAux (some c) (rrest ++ post) =
      mergeAux (some (rrest.foldl mergeTwoAssistant c)) post := by
  intro rrest
  induction rrest with
  | nil => intro c post _; rfl
  | cons m rrest ih =>
    intro c post h
    simp only [List.cons_append]
    rw [mergeAux_cons_assistant_some c m _ (h m (List.mem_cons_self m rrest))]
    rw [ih (mergeTwoAssistant c m) post (fun x hx => h x (List.mem_cons_of_mem m hx))]
    rw [List.foldl_cons]

lemma merge_run_split (pre : List OpenAIMessage) (r1 r2 : OpenAIMessage)
    (rrest post : List OpenAIMessage)
    (h1 : r1.role = Role.assistant) (h2 : r2.role = Role.assistant)
    (hall : ∀ m ∈ rrest, m.role = Role.assistant)
    (hpre : ∀ m, pre.getLast? = some m → m.role ≠ Role.assistant)
    (hpost : ∀ m, post.head? = some m → m.role ≠ Role.assistant) :
    mergeConsecutiveAssistantMessages (pre ++ (r1 :: r2 :: rrest) ++ post) =
      mergeConsecutiveAssistantMessages pre ++
        ((r2 :: rrest).foldl mergeTwoAssistant r1) :: mergeConsecutiveAssistantMessages post := by
  have hrun : ∀ X, mergeAux none ((r1 :: r2 :: rrest) ++ X) =
      mergeAux (some ((r2 :: rrest).foldl mergeTwoAssistant r1)) X := by
    intro X
    simp only [List.cons_append]
    rw [mergeAux_cons_assistant_none _ _ h1]
    have : ((r2 :: rrest) ++ X) = r2 :: (rrest ++ X) := rfl
    rw [← this]
    exact mergeAux_run (r2 :: rrest) r1 X (by
      intro m hm
      rcases List.mem_cons.mp hm with h | h
      · rw [h]; exact h2
      · exact hall m h)
  have hpost2 : ∀ M : OpenAIMessage, mergeAux (some M) post = M :: mergeAux none post := by
    intro M
    cases post with
    | nil => rfl
    | cons p t =>
      rw [mergeAux_cons_other_some M p t (hpost p rfl), mergeAux_cons_other_none p t (hpost p rfl)]
  unfold mergeConsecutiveAssistantMessages
  by_cases hpe : pre = []
  · subst hpe
    simp only [List.nil_append]
    rw [hrun post, hpost2]
    rfl
  · have hlast : pre.dropLast ++ [pre.getLast hpe] = pre :=
      List.dropLast_append_getLast hpe
    have hnl : (pre.getLast hpe).role ≠ Role.assistant :=
      hpre (pre.getLast hpe) (List.getLast?_eq_getLast_of_ne_nil hpe)
    rw [← hlast, List.append_assoc (pre.dropLast) [pre.getLast hpe] (r1 :: r2 :: rrest)]
    rw [show pre.dropLast ++ ([pre.getLast hpe] ++ (r1 :: r2 :: rrest)) ++ post =
        (pre.dropLast ++ [pre.getLast hpe]) ++ ((r1 :: r2 :: rrest) ++ post) by simp]
    rw [mergeAux_append_flush pre.dropLast (pre.getLast hpe) ((r1 :: r2 :: rrest) ++ post)
        none hnl]
    rw [hrun post, hpost2]

/-- Two adjacent assistant messages whose first content is the empty
string: JavaScript's filter(Boolean) drops it from the join, although it
is not null. -/
def exEmptyContent : List OpenAIMessage :=
  [{ role := Role.assistant, content := some "" },
   { role := Role.assistant, content := some "x" }]

/-- C8 (as stated, refuted): the merged content is NOT always the
newline join of the non-null member contents — `filter(Boolean)` also
drops empty strings.  On `exEmptyContent` (a maximal 2-run of assistant
messages) the code yields content "x" while the claim's join of non-null
contents is "\nx". -/
theorem claim8_counterexample :
    (mergeConsecutiveAssistantMessages exEmptyContent).map (fun m => m.content) = [some "x"] ∧
    nonNullJoin (exEmptyContent.map (fun m => m.content)) = some "\nx" ∧
    exEmptyContent.length = 2 ∧
    (∀ m ∈ exEmptyContent, m.role = Role.assistant) := by
  refine ⟨?_, ?_, ?_, ?_⟩ <;> decide

/-- C8 (amended): a maximal run of two or more adjacent assistant
messages is replaced by exactly one assistant message whose tool_calls
length is the sum of the members' tool_calls lengths (absent counting as
zero) and whose content is the newline join of the members' non-null
AND non-empty contents (JavaScript truthiness also drops empty strings),
or null when no such content exists. -/
theorem claim8_amended :
    ∀ (pre run post : List OpenAIMessage),
      2 ≤ run.length →
      (∀ m ∈ run, m.role = Role.assistant) →
      (∀ m, pre.getLast? = some m → m.role ≠ Role.assistant) →
      (∀ m, post.head? = some m → m.role ≠ Role.assistant) →
      ∃ M, mergeConsecutiveAssistantMessages (pre ++ run ++ post) =
             mergeConsecutiveAssistantMessages pre ++
               M :: mergeConsecutiveAssistantMessages post ∧
           M.role = Role.assistant ∧
           (M.tool_calls.getD []).length =
             (run.map fun m => (m.tool_calls.getD []).length).sum ∧
           M.content = normalizedJoin (run.map fun m => m.content) := by
  intro pre run post hlen hall hpre hpost
  cases run with
  | nil => simp at hlen
  | cons r1 tail =>
    cases tail with
    | nil => simp at hlen
    | cons r2 rrest =>
      have h1 : r1.role = Role.assistant := hall r1 (by simp)
      have h2 : r2.role = Role.assistant := hall r2 (by simp)
      have hall' : ∀ m ∈ rrest, m.role = Role.assistant :=
        fun m hm => hall m (by simp [hm])
      refine ⟨(r2 :: rrest).foldl mergeTwoAssistant r1,
        merge_run_split pre r1 r2 rrest post h1 h2 hall' hpre hpost, ?_, ?_, ?_⟩
      · exact fold_mergeTwo_role (r2 :: rrest) r1 h1
      · rw [List.foldl_cons]
        rw [fold_mergeTwo_tool_calls rrest (mergeTwoAssistant r1 r2)
            (r1.tool_calls.getD [] ++ r2.tool_calls.getD [])
            (mergeTwoAssistant_tool_calls r1 r2)]
        simp [List.length_flatMap]
        have hc : List.map (List.length ∘ fun m => m.tool_calls.getD []) rrest =
            List.map (fun m => (m.tool_calls.getD []).length) rrest := rfl
        rw [hc]
      · rw [List.foldl_cons]
        have base : (mergeTwoAssistant r1 r2).content =
            normalizedJoin [r1.content, r2.content] := by
          rw [mergeTwoAssistant_content, normalizedJoin_eq_ite]
          rfl
        rw [fold_mergeTwo_content rrest (mergeTwoAssistant r1 r2)
            [r1.content, r2.content] base]
        simp

/-- Plain assistant messages (no tool_calls field) used as a merged run. -/
def aMsg1 : OpenAIMessage := { role := Role.assistant, content := some "a" }

/-- Second assistant message of the witness run. -/
def aMsg2 : OpenAIMessage := { role := Role.assistant, content := some "b" }

/-- Witness for C8 (amended) at the 2-run [aMsg1, aMsg2]. -/
theorem claim8_witness :
    2 ≤ ([aMsg1, aMsg2] : List OpenAIMessage).length ∧
    (∀ m ∈ ([aMsg1, aMsg2] : List OpenAIMessage), m.role = Role.assistant) ∧
    (∃ M, mergeConsecutiveAssistantMessages ([] ++ [aMsg1, aMsg2] ++ []) =
            mergeConsecutiveAssistantMessages [] ++
              M :: mergeConsecutiveAssistantMessages [] ∧
          M.role = Role.assistant ∧
          (M.tool_calls.getD []).length =
            (([aMsg1, aMsg2] : List OpenAIMessage).map
              fun m => (m.tool_calls.getD []).length).sum ∧
          M.content = normalizedJoin (([aMsg1, aMsg2] : List OpenAIMessage).map
            fun m => m.content)) :=
  ⟨by decide, by decide,
   claim8_amended [] [aMsg1, aMsg2] [] (by decide) (by decide)
     (fun m hm => by simp at hm) (fun m hm => by simp at hm)⟩

/-- C9 (confirmed): whenever two or more adjacent assistant messages are
actually merged, the resulting message carries a PRESENT tool_calls
array — the empty array when none of the merged messages had the field —
unlike cleanOrphanedToolCalls, which drops an empty field. -/
theorem claim9_merged_toolcalls_present :
    ∀ (pre run post : List OpenAIMessage),
      2 ≤ run.length →
      (∀ m ∈ run, m.role = Role.assistant) →
      (∀ m, pre.getLast? = some m → m.role ≠ Role.assistant) →
      (∀ m, post.head? = some m → m.role ≠ Role.assistant) →
      ∃ M, mergeConsecutiveAssistantMessages (pre ++ run ++ post) =
             mergeConsecutiveAssistantMessages pre ++
               M :: mergeConsecutiveAssistantMessages post ∧
           M.tool_calls.isSome = true ∧
           ((∀ m ∈ run, m.tool_calls = none) → M.tool_calls = some []) := by
  intro pre run post hlen hall hpre hpost
  cases run with
  | nil => simp at hlen
  | cons r1 tail =>
    cases tail with
    | nil => simp at hlen
    | cons r2 rrest =>
      have h1 : r1.role = Role.assistant := hall r1 (by simp)
      have h2 : r2.role = Role.assistant := hall r2 (by simp)
      have hall' : ∀ m ∈ rrest, m.role = Role.assistant :=
        fun m hm => hall m (by simp [hm])
      have htc : ((r2 :: rrest).foldl mergeTwoAssistant r1).tool_calls =
          some ((r1.tool_calls.getD [] ++ r2.tool_calls.getD []) ++
            rrest.flatMap (fun m => m.tool_calls.getD [])) := by
        rw [List.foldl_cons]
        exact fold_mergeTwo_tool_calls rrest (mergeTwoAssistant r1 r2)
          (r1.tool_calls.getD [] ++ r2.tool_calls.getD [])
          (mergeTwoAssistant_tool_calls r1 r2)
      refine ⟨(r2 :: rrest).foldl mergeTwoAssistant r1,
        merge_run_split pre r1 r2 rrest post h1 h2 hall' hpre hpost, ?_, ?_⟩
      · rw [htc]; rfl
      · intro hnone
        rw [htc]
        have e1 : r1.tool_calls.getD [] = [] := by
          rw [hnone r1 (by simp)]; rfl
        have e2 : r2.tool_calls.getD [] = [] := by
          rw [hnone r2 (by simp)]; rfl
        have e3 : rrest.flatMap (fun m => m.tool_calls.getD []) = [] :=
          List.flatMap_eq_nil_iff.mpr (fun m hm => by
            rw [hnone m (by simp [hm])]; rfl)
        rw [e1, e2, e3]
        rfl

/-- Witness for C9 at the 2-run [aMsg1, aMsg2], both without
tool_calls. -/
theorem claim9_witness :
    (∀ m ∈ ([aMsg1, aMsg2] : List OpenAIMessage), m.tool_calls = none) ∧
    (∃ M, mergeConsecutiveAssistantMessages ([] ++ [aMsg1, aMsg2] ++ []) =
            mergeConsecutiveAssistantMessages [] ++
              M :: mergeConsecutiveAssistantMessages [] ∧
          M.tool_calls.isSome = true ∧
          ((∀ m ∈ ([aMsg1, aMsg2] : List OpenAIMessage), m.tool_calls = none) →
            M.tool_calls = some [])) :=
  ⟨by decide,
   claim9_merged_toolcalls_present [] [aMsg1, aMsg2] [] (by decide) (by decide)
     (fun m hm => by simp at hm) (fun m hm => by simp at hm)⟩
